import Mathlib

/-!
Verification of the bilibili-downloader core against its specification.

The Rust sources are embedded shallowly:

* `video_info.rs` / `bilibili/video_info.rs` / `bilibili/api/bv.rs` —
  catalog data model, quality/bandwidth selection loops, catalog
  construction (`VideoInfo::new`).
* `bilibili/initial_state.rs` — script-assignment locator (visitor over
  assignment expressions, span slicing) and the per-block extraction loop.
* `bilibili/title.rs` / `video.rs` — `<h1>` title extraction.
* `download.rs` — the fetch/merge/cleanup orchestration, modelled as a
  function from the outcomes of the external effects to an event trace
  plus a result.

Rust panics (`panic!`, `expect`, out-of-bounds indexing) are modelled by
an explicit `none` / `panicked` constructor of the result type.
Machine integers (`u8` quality ids, `u32` bandwidths) only ever get
compared here, never overflowed, so they are modelled as `Nat`.
-/

namespace BiliDl

/-! ### Data model (video_info.rs, bilibili/api/bv.rs) -/

/-- A video variant: `Video \x7b id, base_url, bandwidth \x7d` in
video_info.rs (`id` is the quality id of the tier the variant backs). -/
structure VideoTrack where
  id : Nat
  base_url : String
  bandwidth : Nat
deriving DecidableEq, Repr

/-- An audio variant (`Audio` in video_info.rs) and also the generic
`Resource` of bilibili/video_info.rs: a URL plus a bandwidth. -/
structure Resource where
  base_url : String
  bandwidth : Nat
deriving DecidableEq, Repr

/-- The decoded catalog: `Data` of video_info.rs / bilibili/api/bv.rs with
the `dash` nesting flattened (`video` and `audio` are `dash.video`,
`dash.audio`). -/
structure RawData where
  accept_description : List String
  accept_quality : List Nat
  video : List VideoTrack
  audio : List Resource
deriving DecidableEq, Repr

/-- The validated catalog built by `VideoInfo::new` (video_info.rs). -/
structure VideoInfo where
  title : String
  quality_description : List String
  quality : List Nat
  video : List VideoTrack
  audio : List Resource
deriving DecidableEq, Repr

/-! ### Selection loops -/

/-- Loop body shared by `Video::get_best_quality_index` (bilibili/video.rs),
`VideoInfo::get_hightest_quality_name` and `VideoInfo::find_best_resource`
(bilibili/video_info.rs): iterate with a running index, best index and best
value, updating on a strict increase (`*quality > max_quality`). -/
def bestIdxAux : List Nat → Nat → Nat → Nat → Nat × Nat
  | [], _, maxIdx, maxQ => (maxIdx, maxQ)
  | q :: rest, idx, maxIdx, maxQ =>
    if maxQ < q then bestIdxAux rest (idx + 1) idx q
    else bestIdxAux rest (idx + 1) maxIdx maxQ

/-- `Video::get_best_quality_index` (bilibili/video.rs, lines 84-95):
index into `accept_quality` of the numerically largest quality id. -/
def get_best_quality_index (accept_quality : List Nat) : Nat :=
  (bestIdxAux accept_quality 0 0 0).1

/-- `VideoInfo::find_best_resource` (bilibili/video_info.rs, lines
101-111).  The Rust ends with `resources[best_resource_idx].clone()`,
which panics on an empty slice; `none` models that panic. -/
def find_best_resource (resources : List Resource) : Option Resource :=
  resources.get? (bestIdxAux (resources.map (fun r => r.bandwidth)) 0 0 0).1

/-- Loop of `get_audio_url` (video_info.rs lines 102-112 and
bilibili/video.rs lines 53-63): track the best bandwidth and its URL,
starting from `(0, String::new())`. -/
def bestUrlAux : List Resource → Nat → String → Nat × String
  | [], maxBw, url => (maxBw, url)
  | a :: rest, maxBw, url =>
    if maxBw < a.bandwidth then bestUrlAux rest a.bandwidth a.base_url
    else bestUrlAux rest maxBw url

/-- `VideoInfo::get_audio_url` (video_info.rs): returns the accumulated
URL, which is the empty string when no variant ever exceeded bandwidth 0. -/
def get_audio_url (audio : List Resource) : String :=
  (bestUrlAux audio 0 "").2

def VideoInfo.get_audio_url (vi : VideoInfo) : String :=
  BiliDl.get_audio_url vi.audio

/-- Loop of the two `get_video_url` variants: update only when
`video.id == quality && video.bandwidth > max_bandwidth`. -/
def bestVideoAux (q : Nat) : List VideoTrack → Nat → String → Nat × String
  | [], maxBw, url => (maxBw, url)
  | v :: rest, maxBw, url =>
    if v.id = q ∧ maxBw < v.bandwidth then bestVideoAux q rest v.bandwidth v.base_url
    else bestVideoAux q rest maxBw url

/-- `VideoInfo::get_video_url` (video_info.rs, lines 89-100).  `none`
models the Rust panic of `self.quality[selected_quality_index]` when the
index is out of bounds; otherwise the accumulated URL is returned as is —
the empty string when no variant matched. -/
def VideoInfo.get_video_url (vi : VideoInfo) (idx : Nat) : Option String :=
  match vi.quality.get? idx with
  | none => none
  | some q => some (bestVideoAux q vi.video 0 "").2

/-- `Video::get_video_url` (bilibili/video.rs, lines 37-51): same loop
over `info.data.dash.video`, then `panic!("failed to find video")` when
the accumulated URL is empty.  `none` models both the index panic and
that explicit panic. -/
def bvGetVideoUrl (data : RawData) (idx : Nat) : Option String :=
  match data.accept_quality.get? idx with
  | none => none
  | some q =>
    let url := (bestVideoAux q data.video 0 "").2
    if url = "" then none else some url

/-! ### Catalog construction (`VideoInfo::new`, video_info.rs lines 63-87) -/

/-- `Iterator::position` of the Rust standard library, used as
`all_quality.iter().position(|r| r == q)`. -/
def position (p : α → Bool) : List α → Option Nat
  | [] => none
  | a :: l => if p a then some 0 else (position p l).map (fun i => i + 1)

/-- The distinct quality ids occurring in `dash.video`, sorted in
descending order: the Rust collects the ids into a `HashSet`, back into a
`Vec`, and sorts with `sort_by(|a, b| b.cmp(a))`.  The hash set's
iteration order is immaterial because of the sort, so the set is modelled
by `dedup`. -/
def availableQuality (video : List VideoTrack) : List Nat :=
  List.insertionSort (fun a b => a ≥ b) ((video.map (fun v => v.id)).dedup)

/-- The quality ids of `availableQuality` that have no position in
`accept_quality` — collected, in order, by the closure inside
`VideoInfo::new`. -/
def qualityNotFound (raw : RawData) : List Nat :=
  (availableQuality raw.video).filter
    (fun q => (position (fun r => r == q) raw.accept_quality).isNone)

/-- The index-aligned labels produced inside `VideoInfo::new`: for each
available quality id, the description at its position in
`accept_quality`, or `""` for an id with no position (such an id also
lands in `qualityNotFound`, so the `""` is never observable in a built
catalog). -/
def qualityDescriptions (raw : RawData) : List String :=
  (availableQuality raw.video).map (fun q =>
    match position (fun r => r == q) raw.accept_quality with
    | some i => raw.accept_description.getD i ""
    | none => "")

/-- Result of `VideoInfo::new`.  `panicked` models the Rust index panic
of `&all_description[index]` when `accept_description` is shorter than
the found position; `failed` carries the ids reported in the
`VideoParseError` message `"no description found for quality id = ..."`. -/
inductive NewResult
  | panicked
  | failed (missing : List Nat)
  | built (vi : VideoInfo)
deriving DecidableEq, Repr

/-- `VideoInfo::new` (video_info.rs, lines 63-87). -/
def VideoInfo.new (title : String) (raw : RawData) : NewResult :=
  if (availableQuality raw.video).all (fun q =>
      match position (fun r => r == q) raw.accept_quality with
      | some i => decide (i < raw.accept_description.length)
      | none => true) then
    if (qualityNotFound raw).isEmpty then
      .built ⟨title, qualityDescriptions raw, availableQuality raw.video,
        raw.video, raw.audio⟩
    else .failed (qualityNotFound raw)
  else .panicked

/-! ### Title extraction (bilibili/title.rs, video.rs) -/

inductive TitleError
  | multipleH1 (page : String)
  | noH1 (page : String)
deriving DecidableEq, Repr

/-- `extract_title` (bilibili/title.rs, lines 4-20).  The input list is
the inner text of each `<h1>` element of the document, in document
order; the scraper producing it is the external document parser. -/
def extract_title (potential_titles : List String) (video_id : String) :
    Except TitleError String :=
  if potential_titles.length > 1 then .error (.multipleH1 video_id)
  else if potential_titles.isEmpty then .error (.noH1 video_id)
  else .ok (potential_titles.getD 0 "")

/-- `Video::extract_title` (video.rs, lines 26-42): same strict
validation, then `.replace("/", "|")` on the single title. -/
def videoExtractTitle (potential_titles : List String) (url : String) :
    Except TitleError String :=
  if potential_titles.length > 1 then .error (.multipleH1 url)
  else if potential_titles.isEmpty then .error (.noH1 url)
  else .ok ((potential_titles.getD 0 "").replace "/" "|")

/-! ### Script-assignment locator (bilibili/initial_state.rs)

The swc syntax tree is embedded with exactly the shape the visitor
distinguishes: an assignment expression has a left-hand target which is
either a simple member access `obj.prop` or something else, and a
right-hand side of which only the span is relevant.  Spans use swc's
`BytePos` convention: the source file starts at byte position 1, and a
node's span is `[lo, hi)` in those 1-based positions. -/

structure Span where
  lo : Nat
  hi : Nat
deriving DecidableEq, Repr

inductive AssignObj
  | ident (sym : String)
  | otherExpr
deriving DecidableEq, Repr

inductive AssignProp
  | ident (sym : String)
  | otherProp
deriving DecidableEq, Repr

inductive AssignLeft
  | simpleMember (obj : AssignObj) (prop : AssignProp)
  | otherTarget
deriving DecidableEq, Repr

structure JsAssign where
  left : AssignLeft
  rightSpan : Span
deriving DecidableEq, Repr

/-- A parsed module, reduced to its assignment expressions in the order
the swc visitor reaches them. -/
structure JsModule where
  assigns : List JsAssign
deriving DecidableEq, Repr

/-- The test performed by `InitialStateVisitor::visit_assign_expr`
(bilibili/initial_state.rs, lines 68-87): the target must be a simple
member assignment `window.__INITIAL_STATE__`. -/
def matchesInitialState (a : JsAssign) : Bool :=
  match a.left with
  | .simpleMember (.ident obj) (.ident p) => obj == "window" && p == "__INITIAL_STATE__"
  | _ => false

/-- Running the visitor over the module: `object_span` is overwritten on
every match, so a later matching assignment wins. -/
def visitModule (m : JsModule) : Option Span :=
  m.assigns.foldl (fun acc a => if matchesInitialState a then some a.rightSpan else acc) none

/-- The slicing in `try_extract_from_code`: `content[span.lo - 1 .. span.hi - 1]`,
converting 1-based `BytePos` bounds to 0-based byte offsets.  Content is a
character list; `drop`/`take` are total where the Rust slice would panic
out of bounds, and the claims only apply them to in-bounds spans. -/
def sliceSpan (content : List Char) (s : Span) : List Char :=
  (content.drop (s.lo - 1)).take (s.hi - 1 - (s.lo - 1))

/-- `try_extract_from_code` (bilibili/initial_state.rs, lines 96-106). -/
def try_extract_from_code (ast : JsModule) (content : List Char) : Option (List Char) :=
  match visitModule ast with
  | some span => some (sliceSpan content span)
  | none => none

/-- Outcome of running the swc parser on one script block; the parser
itself is the external collaborator, so each block carries its outcome. -/
inductive ParseOutcome
  | invalid
  | valid (m : JsModule)
deriving DecidableEq, Repr

structure ScriptBlock where
  content : List Char
  parsed : ParseOutcome
deriving DecidableEq, Repr

/-- `parse_js` (bilibili/initial_state.rs, lines 34-61): `parse_module`
followed by `.expect("failed to parser module")` — on a syntactically
invalid fragment the function panics instead of returning an error.
`none` models that panic. -/
def parse_js (b : ScriptBlock) : Option JsModule :=
  match b.parsed with
  | .invalid => none
  | .valid m => some m

inductive ExtractOutcome
  | panicked
  | notFoundErr
  | found (json : List Char)
deriving DecidableEq, Repr

/-- `extract_initial_state` (bilibili/initial_state.rs, lines 108-123):
iterate the candidate script blocks in document order, parse each one,
and return the first extracted span text; the input list is the blocks
selected by `script:not([type*=json])`.  A block whose parse panics stops
the whole loop (`panicked`); only an exhausted loop yields the
`failed to find __INITIAL_STATE__ assignment` error (`notFoundErr`). -/
def extract_initial_state : List ScriptBlock → ExtractOutcome
  | [] => .notFoundErr
  | b :: rest =>
    match parse_js b with
    | none => .panicked
    | some ast =>
      match try_extract_from_code ast b.content with
      | some json => .found json
      | none => extract_initial_state rest

/-! ### Download orchestration (download.rs, lines 80-101)

`Downloader::download_and_merge` is
`tokio::try_join!(download video, download audio)?` followed by
`merge_video_and_audio(..)?`, a log line, and two `fs::remove_file(..)?`
calls.  The external effects (the two fetches, the ffmpeg merge, the two
deletions) are abstracted by their outcomes; the function below replays
the control flow of the Rust over those outcomes and records the event
trace.  `videoErrFirst` resolves which error `try_join!` observes first
when both fetches fail. -/

inductive Outcome
  | ok
  | err (msg : String)
deriving DecidableEq, Repr

inductive DlEvent
  | fetchVideoStart
  | fetchAudioStart
  | fetchVideoDone
  | fetchAudioDone
  | mergeStart
  | mergeDone
  | removeVideoAttempt
  | removeAudioAttempt
deriving DecidableEq, Repr

structure FetchEnv where
  videoFetch : Outcome
  audioFetch : Outcome
  videoErrFirst : Bool
  mergeRun : Outcome
  removeVideoFile : Outcome
  removeAudioFile : Outcome
deriving DecidableEq, Repr

/-- `tokio::try_join!` on two futures: both are started; the joined
future succeeds when both succeed and otherwise fails with the first
error observed. -/
def tryJoin2 (v a : Outcome) (videoErrFirst : Bool) : Outcome :=
  match v, a with
  | .ok, .ok => .ok
  | .err e, .ok => .err e
  | .ok, .err e => .err e
  | .err ev, .err ea => .err (if videoErrFirst then ev else ea)

/-- `Downloader::download_and_merge` (download.rs, lines 80-101); the
same control flow appears in `Video::download` (bilibili/video.rs, lines
142-161). -/
def download_and_merge (env : FetchEnv) : List DlEvent × Outcome :=
  match tryJoin2 env.videoFetch env.audioFetch env.videoErrFirst with
  | .err e => ([.fetchVideoStart, .fetchAudioStart], .err e)
  | .ok =>
    match env.mergeRun with
    | .err e =>
      ([.fetchVideoStart, .fetchAudioStart, .fetchVideoDone, .fetchAudioDone,
        .mergeStart], .err e)
    | .ok =>
      match env.removeVideoFile with
      | .err e =>
        ([.fetchVideoStart, .fetchAudioStart, .fetchVideoDone, .fetchAudioDone,
          .mergeStart, .mergeDone, .removeVideoAttempt], .err e)
      | .ok =>
        match env.removeAudioFile with
        | .err e =>
          ([.fetchVideoStart, .fetchAudioStart, .fetchVideoDone, .fetchAudioDone,
            .mergeStart, .mergeDone, .removeVideoAttempt, .removeAudioAttempt], .err e)
        | .ok =>
          ([.fetchVideoStart, .fetchAudioStart, .fetchVideoDone, .fetchAudioDone,
            .mergeStart, .mergeDone, .removeVideoAttempt, .removeAudioAttempt], .ok)

/-! ### Characterization of the selection loops -/

/-- Utility: `getD` agrees with `get` below the length. -/
theorem getD_of_lt {α : Type} (l : List α) (d : α) (i : Nat) (h : i < l.length) :
    l.getD i d = l.get ⟨i, h⟩ := by
  simp [List.getD_eq_getElem?_getD, List.getElem?_eq_getElem h, List.get_eq_getElem]

/-- The best-index loop either never updates (everything is at most the
initial best value) or ends on the first position of the running maximum:
the final value is an element, bounds every element, and strictly bounds
every earlier element. -/
theorem bestIdxAux_spec (l : List Nat) : ∀ (idx maxIdx maxQ : Nat),
    ((∀ q ∈ l, q ≤ maxQ) ∧ bestIdxAux l idx maxIdx maxQ = (maxIdx, maxQ)) ∨
    (∃ i, ∃ hi : i < l.length,
      maxQ < (bestIdxAux l idx maxIdx maxQ).2 ∧
      (bestIdxAux l idx maxIdx maxQ).1 = idx + i ∧
      (bestIdxAux l idx maxIdx maxQ).2 = l.get ⟨i, hi⟩ ∧
      (∀ q ∈ l, q ≤ (bestIdxAux l idx maxIdx maxQ).2) ∧
      ∀ j, ∀ hj : j < l.length, j < i →
        l.get ⟨j, hj⟩ < (bestIdxAux l idx maxIdx maxQ).2) := by
  induction l with
  | nil => intro idx maxIdx maxQ; exact Or.inl ⟨by simp, rfl⟩
  | cons q rest ih =>
    intro idx maxIdx maxQ
    by_cases h : maxQ < q
    · have hstep : bestIdxAux (q :: rest) idx maxIdx maxQ =
          bestIdxAux rest (idx + 1) idx q := by simp [bestIdxAux, h]
      rw [hstep]
      rcases ih (idx + 1) idx q with ⟨hall, heq⟩ | ⟨i, hi, h1, h2, h3, h4, h5⟩
      · refine Or.inr ⟨0, Nat.succ_pos _, ?_, ?_, ?_, ?_, ?_⟩
        · rw [heq]; exact h
        · rw [heq]; simp
        · rw [heq]; rfl
        · intro x hx
          rw [heq]
          rcases List.mem_cons.mp hx with rfl | hx
          · exact le_refl x
          · exact hall x hx
        · intro j hj hj0; omega
      · refine Or.inr ⟨i + 1, Nat.succ_lt_succ hi, ?_, ?_, ?_, ?_, ?_⟩
        · exact lt_trans h h1
        · rw [h2]; omega
        · rw [h3]; simp
        · intro x hx
          rcases List.mem_cons.mp hx with rfl | hx
          · exact le_of_lt h1
          · exact h4 x hx
        · intro j hj hji
          match j, hj with
          | 0, _ => simpa using h1
          | j + 1, hj =>
            have hj' : j < rest.length := Nat.lt_of_succ_lt_succ hj
            have := h5 j hj' (Nat.lt_of_succ_lt_succ hji)
            simpa using this
    · have hstep : bestIdxAux (q :: rest) idx maxIdx maxQ =
          bestIdxAux rest (idx + 1) maxIdx maxQ := by simp [bestIdxAux, h]
      rw [hstep]
      have hq : q ≤ maxQ := Nat.le_of_not_lt h
      rcases ih (idx + 1) maxIdx maxQ with ⟨hall, heq⟩ | ⟨i, hi, h1, h2, h3, h4, h5⟩
      · refine Or.inl ⟨?_, heq⟩
        intro x hx
        rcases List.mem_cons.mp hx with rfl | hx
        · exact hq
        · exact hall x hx
      · refine Or.inr ⟨i + 1, Nat.succ_lt_succ hi, h1, ?_, ?_, ?_, ?_⟩
        · rw [h2]; omega
        · rw [h3]; simp
        · intro x hx
          rcases List.mem_cons.mp hx with rfl | hx
          · exact le_trans hq (le_of_lt h1)
          · exact h4 x hx
        · intro j hj hji
          match j, hj with
          | 0, _ => simpa using lt_of_le_of_lt hq h1
          | j + 1, hj =>
            have hj' : j < rest.length := Nat.lt_of_succ_lt_succ hj
            have := h5 j hj' (Nat.lt_of_succ_lt_succ hji)
            simpa using this

/-- C2: for every catalog with a non-empty `acceptedQualityIds` sequence,
`get_best_quality_index` returns the index of the numerically largest
quality id, and on ties returns the first occurrence in iteration order
(every strictly earlier entry is strictly smaller); in particular for
`[120, 116, 80]` it returns index 0. -/
theorem best_quality_index_is_first_max :
    (∀ accept_quality : List Nat, accept_quality ≠ [] →
      get_best_quality_index accept_quality < accept_quality.length ∧
      (∀ q ∈ accept_quality,
        q ≤ accept_quality.getD (get_best_quality_index accept_quality) 0) ∧
      (∀ j, j < get_best_quality_index accept_quality →
        accept_quality.getD j 0 <
          accept_quality.getD (get_best_quality_index accept_quality) 0)) ∧
    get_best_quality_index [120, 116, 80] = 0 := by
  constructor
  · intro l hne
    rcases bestIdxAux_spec l 0 0 0 with ⟨hall, heq⟩ | ⟨i, hi, h1, h2, h3, h4, h5⟩
    · have hres : get_best_quality_index l = 0 := by
        unfold get_best_quality_index; rw [heq]
      have hlen : 0 < l.length := List.length_pos.mpr hne
      refine ⟨by rw [hres]; exact hlen, ?_, ?_⟩
      · intro q hq
        have : q ≤ 0 := hall q hq
        omega
      · intro j hj; rw [hres] at hj; omega
    · have hres : get_best_quality_index l = i := by
        unfold get_best_quality_index; rw [h2]; omega
      rw [hres]
      refine ⟨hi, ?_, ?_⟩
      · intro q hq
        have := h4 q hq
        rw [getD_of_lt l 0 i hi, ← h3]
        exact this
      · intro j hj
        have hjl : j < l.length := lt_trans hj hi
        have := h5 j hjl hj
        rw [getD_of_lt l 0 i hi, getD_of_lt l 0 j hjl, ← h3]
        exact this
  · decide

/-- Non-vacuity of the best-quality theorem at the spec's example. -/
theorem best_quality_index_is_first_max_witness :
    get_best_quality_index [120, 116, 80] < 3 :=
  (best_quality_index_is_first_max.1 [120, 116, 80] (by decide)).1

/-- The URL-tracking loop either never updates (every bandwidth is at
most the initial one, and the initial pair survives) or ends on the first
position of the running maximum bandwidth, carrying that entry's URL. -/
theorem bestUrlAux_spec (l : List Resource) : ∀ (maxBw : Nat) (url : String),
    ((∀ a ∈ l, a.bandwidth ≤ maxBw) ∧ bestUrlAux l maxBw url = (maxBw, url)) ∨
    (∃ i, ∃ hi : i < l.length,
      maxBw < (bestUrlAux l maxBw url).1 ∧
      (bestUrlAux l maxBw url).1 = (l.get ⟨i, hi⟩).bandwidth ∧
      (bestUrlAux l maxBw url).2 = (l.get ⟨i, hi⟩).base_url ∧
      (∀ a ∈ l, a.bandwidth ≤ (bestUrlAux l maxBw url).1) ∧
      ∀ j, ∀ hj : j < l.length, j < i →
        (l.get ⟨j, hj⟩).bandwidth < (bestUrlAux l maxBw url).1) := by
  induction l with
  | nil => intro maxBw url; exact Or.inl ⟨by simp, rfl⟩
  | cons a rest ih =>
    intro maxBw url
    by_cases h : maxBw < a.bandwidth
    · have hstep : bestUrlAux (a :: rest) maxBw url =
          bestUrlAux rest a.bandwidth a.base_url := by simp [bestUrlAux, h]
      rw [hstep]
      rcases ih a.bandwidth a.base_url with ⟨hall, heq⟩ | ⟨i, hi, h1, h2, h3, h4, h5⟩
      · refine Or.inr ⟨0, Nat.succ_pos _, ?_, ?_, ?_, ?_, ?_⟩
        · rw [heq]; exact h
        · rw [heq]; rfl
        · rw [heq]; rfl
        · intro x hx
          rw [heq]
          rcases List.mem_cons.mp hx with rfl | hx
          · exact le_refl _
          · exact hall x hx
        · intro j hj hj0; omega
      · refine Or.inr ⟨i + 1, Nat.succ_lt_succ hi, ?_, ?_, ?_, ?_, ?_⟩
        · exact lt_trans h h1
        · rw [h2]; simp
        · rw [h3]; simp
        · intro x hx
          rcases List.mem_cons.mp hx with rfl | hx
          · exact le_of_lt h1
          · exact h4 x hx
        · intro j hj hji
          match j, hj with
          | 0, _ => simpa using h1
          | j + 1, hj =>
            have hj' : j < rest.length := Nat.lt_of_succ_lt_succ hj
            have := h5 j hj' (Nat.lt_of_succ_lt_succ hji)
            simpa using this
    · have hstep : bestUrlAux (a :: rest) maxBw url =
          bestUrlAux rest maxBw url := by simp [bestUrlAux, h]
      rw [hstep]
      have ha : a.bandwidth ≤ maxBw := Nat.le_of_not_lt h
      rcases ih maxBw url with ⟨hall, heq⟩ | ⟨i, hi, h1, h2, h3, h4, h5⟩
      · refine Or.inl ⟨?_, heq⟩
        intro x hx
        rcases List.mem_cons.mp hx with rfl | hx
        · exact ha
        · exact hall x hx
      · refine Or.inr ⟨i + 1, Nat.succ_lt_succ hi, h1, ?_, ?_, ?_, ?_⟩
        · rw [h2]; simp
        · rw [h3]; simp
        · intro x hx
          rcases List.mem_cons.mp hx with rfl | hx
          · exact le_trans ha (le_of_lt h1)
          · exact h4 x hx
        · intro j hj hji
          match j, hj with
          | 0, _ => simpa using lt_of_le_of_lt ha h1
          | j + 1, hj =>
            have hj' : j < rest.length := Nat.lt_of_succ_lt_succ hj
            have := h5 j hj' (Nat.lt_of_succ_lt_succ hji)
            simpa using this

/-- `find_best_resource` on a non-empty list returns the first entry
attaining the maximal bandwidth. -/
theorem find_best_resource_first_max (rs : List Resource) (hne : rs ≠ []) :
    ∃ i, ∃ hi : i < rs.length,
      find_best_resource rs = some (rs.get ⟨i, hi⟩) ∧
      (∀ x ∈ rs, x.bandwidth ≤ (rs.get ⟨i, hi⟩).bandwidth) ∧
      ∀ j, ∀ hj : j < rs.length, j < i →
        (rs.get ⟨j, hj⟩).bandwidth < (rs.get ⟨i, hi⟩).bandwidth := by
  have hmem : ∀ x ∈ rs, x.bandwidth ∈ rs.map (fun r => r.bandwidth) := by
    intro x hx; exact List.mem_map.mpr ⟨x, hx, rfl⟩
  have hlen : (rs.map (fun r => r.bandwidth)).length = rs.length := List.length_map _ _
  rcases bestIdxAux_spec (rs.map (fun r => r.bandwidth)) 0 0 0 with
    ⟨hall, heq⟩ | ⟨i, hi, h1, h2, h3, h4, h5⟩
  · have h0 : 0 < rs.length := List.length_pos.mpr hne
    refine ⟨0, h0, ?_, ?_, ?_⟩
    · unfold find_best_resource
      rw [heq]
      exact List.get?_eq_get h0
    · intro x hx
      have := hall x.bandwidth (hmem x hx)
      omega
    · intro j hj hj0; omega
  · have hi' : i < rs.length := hlen ▸ hi
    have hgi : (rs.map (fun r => r.bandwidth)).get ⟨i, hi⟩ =
        (rs.get ⟨i, hi'⟩).bandwidth := by
      simp [List.get_eq_getElem]
    refine ⟨i, hi', ?_, ?_, ?_⟩
    · unfold find_best_resource
      rw [h2]
      simp [List.get?_eq_get hi']
    · intro x hx
      have hb := h4 x.bandwidth (hmem x hx)
      rw [h3, hgi] at hb
      exact hb
    · intro j hj hji
      have hj2 : j < (rs.map (fun r => r.bandwidth)).length := hlen.symm ▸ hj
      have hgj : (rs.map (fun r => r.bandwidth)).get ⟨j, hj2⟩ =
          (rs.get ⟨j, hj⟩).bandwidth := by
        simp [List.get_eq_getElem]
      have hb := h5 j hj2 hji
      rw [h3, hgi, hgj] at hb
      exact hb

/-- C3 counterexample: on the non-empty variant list `[(a1, bw 0)]` the
URL-returning selector `get_audio_url` (video_info.rs, lines 102-112)
does not return the entry with the largest bandwidth — the guard
`bandwidth > max_bandwidth` never fires against the initial 0, so the
accumulated URL stays empty instead of being `"a1"`. -/
theorem best_bandwidth_zero_counterexample :
    get_audio_url [⟨"a1", 0⟩] = "" ∧ get_audio_url [⟨"a1", 0⟩] ≠ "a1" := by
  constructor <;> decide

/-- C3 (amended): `find_best_resource` (bilibili/video_info.rs) on every
non-empty list returns the first entry attaining the largest bandwidth;
the URL-returning audio selector `get_audio_url` (video_info.rs) returns
the URL of the first entry attaining the largest bandwidth whenever some
entry has positive bandwidth, and returns the empty string when every
bandwidth is zero; for the audio variants `[(a1, 30280), (a2, 30216)]`
the resolved audio URL is `"a1"`. -/
theorem best_bandwidth_first_max :
    (∀ resources : List Resource, resources ≠ [] →
      ∃ i, ∃ hi : i < resources.length,
        find_best_resource resources = some (resources.get ⟨i, hi⟩) ∧
        (∀ x ∈ resources, x.bandwidth ≤ (resources.get ⟨i, hi⟩).bandwidth) ∧
        ∀ j, ∀ hj : j < resources.length, j < i →
          (resources.get ⟨j, hj⟩).bandwidth < (resources.get ⟨i, hi⟩).bandwidth) ∧
    (∀ audio : List Resource, (∃ a ∈ audio, 0 < a.bandwidth) →
      ∃ i, ∃ hi : i < audio.length,
        get_audio_url audio = (audio.get ⟨i, hi⟩).base_url ∧
        (∀ x ∈ audio, x.bandwidth ≤ (audio.get ⟨i, hi⟩).bandwidth) ∧
        ∀ j, ∀ hj : j < audio.length, j < i →
          (audio.get ⟨j, hj⟩).bandwidth < (audio.get ⟨i, hi⟩).bandwidth) ∧
    (∀ audio : List Resource, (∀ a ∈ audio, a.bandwidth = 0) →
      get_audio_url audio = "") ∧
    get_audio_url [⟨"a1", 30280⟩, ⟨"a2", 30216⟩] = "a1" ∧
    find_best_resource [⟨"a1", 30280⟩, ⟨"a2", 30216⟩] = some ⟨"a1", 30280⟩ := by
  refine ⟨find_best_resource_first_max, ?_, ?_, by decide, by decide⟩
  · intro audio hpos
    rcases bestUrlAux_spec audio 0 "" with ⟨hall, _⟩ | ⟨i, hi, h1, h2, h3, h4, h5⟩
    · rcases hpos with ⟨a, ha, hapos⟩
      have := hall a ha
      omega
    · refine ⟨i, hi, ?_, ?_, ?_⟩
      · unfold get_audio_url
        rw [h3]
      · intro x hx
        have := h4 x hx
        rw [h2] at this
        exact this
      · intro j hj hji
        have := h5 j hj hji
        rw [h2] at this
        exact this
  · intro audio hzero
    rcases bestUrlAux_spec audio 0 "" with ⟨_, heq⟩ | ⟨i, hi, h1, h2, _, _, _⟩
    · unfold get_audio_url
      rw [heq]
    · exfalso
      have hz := hzero (audio.get ⟨i, hi⟩) (List.get_mem _ i hi)
      rw [hz] at h2
      omega

/-- Non-vacuity of the amended best-bandwidth theorem at the spec's
audio example. -/
theorem best_bandwidth_first_max_witness :
    (([⟨"a1", 30280⟩, ⟨"a2", 30216⟩] : List Resource) ≠ []) ∧
    (∃ i, ∃ hi : i < ([⟨"a1", 30280⟩, ⟨"a2", 30216⟩] : List Resource).length,
      find_best_resource [⟨"a1", 30280⟩, ⟨"a2", 30216⟩] =
        some (([⟨"a1", 30280⟩, ⟨"a2", 30216⟩] : List Resource).get ⟨i, hi⟩) ∧
      (∀ x ∈ ([⟨"a1", 30280⟩, ⟨"a2", 30216⟩] : List Resource),
        x.bandwidth ≤ (([⟨"a1", 30280⟩, ⟨"a2", 30216⟩] : List Resource).get ⟨i, hi⟩).bandwidth) ∧
      ∀ j, ∀ hj : j < ([⟨"a1", 30280⟩, ⟨"a2", 30216⟩] : List Resource).length, j < i →
        (([⟨"a1", 30280⟩, ⟨"a2", 30216⟩] : List Resource).get ⟨j, hj⟩).bandwidth <
          (([⟨"a1", 30280⟩, ⟨"a2", 30216⟩] : List Resource).get ⟨i, hi⟩).bandwidth) :=
  ⟨by decide, best_bandwidth_first_max.1 [⟨"a1", 30280⟩, ⟨"a2", 30216⟩] (by decide)⟩

/-! ### Claim C1: empty candidate sets -/

/-- When no variant carries the selected quality id, the video-URL loop
never updates its accumulator. -/
theorem bestVideoAux_no_candidate (q : Nat) (l : List VideoTrack) :
    ∀ (maxBw : Nat) (url : String), (∀ v ∈ l, v.id ≠ q) →
      bestVideoAux q l maxBw url = (maxBw, url) := by
  induction l with
  | nil => intro maxBw url _; rfl
  | cons v rest ih =>
    intro maxBw url hno
    have hv : v.id ≠ q := hno v (List.mem_cons_self v rest)
    have hstep : bestVideoAux q (v :: rest) maxBw url = bestVideoAux q rest maxBw url := by
      simp [bestVideoAux, hv]
    rw [hstep]
    exact ih maxBw url (fun w hw => hno w (List.mem_cons_of_mem v hw))

/-- C1 counterexample: a well-formed catalog with an empty
`audioVariants` list is accepted by `VideoInfo::new`, and resolution then
silently returns the empty audio URL instead of failing with a typed
`ResourceNotFound`; and on a decoded catalog advertising quality id 80
with no backing video variant, `Video::get_video_url`
(bilibili/video.rs) panics — modelled by `none` — rather than returning a
typed error. -/
theorem resource_not_found_counterexample :
    VideoInfo.new "t" ⟨["1080P"], [80], [⟨80, "v1", 100⟩], []⟩ =
      .built ⟨"t", ["1080P"], [80], [⟨80, "v1", 100⟩], []⟩ ∧
    VideoInfo.get_audio_url ⟨"t", ["1080P"], [80], [⟨80, "v1", 100⟩], []⟩ = "" ∧
    bvGetVideoUrl ⟨["1080P"], [80], [], []⟩ 0 = none := by
  refine ⟨?_, ?_, ?_⟩ <;> decide

/-- C1 (amended): when the candidate set for the requested selection is
empty, resolution does not produce a typed `ResourceNotFound` error:
`Video::get_video_url` (bilibili/video.rs) terminates abruptly via
`panic!` (modelled by `none`), `VideoInfo::get_video_url`
(video_info.rs) returns the empty URL, and an empty `audioVariants` list
makes `get_audio_url` silently return the empty URL. -/
theorem empty_candidates_behaviour :
    (∀ (data : RawData) (idx q : Nat), data.accept_quality.get? idx = some q →
      (∀ v ∈ data.video, v.id ≠ q) → bvGetVideoUrl data idx = none) ∧
    (∀ (vi : VideoInfo) (idx q : Nat), vi.quality.get? idx = some q →
      (∀ v ∈ vi.video, v.id ≠ q) → vi.get_video_url idx = some "") ∧
    (∀ vi : VideoInfo, vi.audio = [] → vi.get_audio_url = "") := by
  refine ⟨?_, ?_, ?_⟩
  · intro data idx q hget hno
    unfold bvGetVideoUrl
    rw [hget]
    simp [bestVideoAux_no_candidate q data.video 0 "" hno]
  · intro vi idx q hget hno
    unfold VideoInfo.get_video_url
    rw [hget]
    simp [bestVideoAux_no_candidate q vi.video 0 "" hno]
  · intro vi haud
    unfold VideoInfo.get_audio_url get_audio_url
    rw [haud]
    rfl

/-- Non-vacuity of the empty-candidate theorem at concrete catalogs. -/
theorem empty_candidates_behaviour_witness :
    bvGetVideoUrl ⟨["4K"], [120], [], []⟩ 0 = none ∧
    VideoInfo.get_video_url ⟨"t", ["4K"], [120], [], []⟩ 0 = some "" ∧
    VideoInfo.get_audio_url ⟨"t", ["4K"], [120], [], []⟩ = "" :=
  ⟨empty_candidates_behaviour.1 ⟨["4K"], [120], [], []⟩ 0 120 (by decide) (by decide),
   empty_candidates_behaviour.2.1 ⟨"t", ["4K"], [120], [], []⟩ 0 120 (by decide) (by decide),
   empty_candidates_behaviour.2.2 ⟨"t", ["4K"], [120], [], []⟩ rfl⟩

/-! ### Claim C4: the locator recovers the original source slice -/

/-- The visitor fold leaves its accumulator alone over a run of
non-matching assignment expressions. -/
theorem visit_fold_no_match (l : List JsAssign) :
    ∀ acc : Option Span, (∀ a ∈ l, matchesInitialState a = false) →
      l.foldl (fun acc a => if matchesInitialState a then some a.rightSpan else acc) acc
        = acc := by
  induction l with
  | nil => intro acc _; rfl
  | cons a rest ih =>
    intro acc hno
    have ha : matchesInitialState a = false := hno a (List.mem_cons_self a rest)
    simp only [List.foldl_cons, ha, Bool.false_eq_true, if_false]
    exact ih acc (fun x hx => hno x (List.mem_cons_of_mem a hx))

/-- With exactly one matching assignment the visitor records its
right-hand-side span. -/
theorem visitModule_single (l1 l2 : List JsAssign) (a : JsAssign)
    (ha : matchesInitialState a = true)
    (h2 : ∀ x ∈ l2, matchesInitialState x = false) :
    visitModule ⟨l1 ++ a :: l2⟩ = some a.rightSpan := by
  unfold visitModule
  rw [List.foldl_append]
  simp only [List.foldl_cons, ha, if_true]
  exact visit_fold_no_match l2 _ h2

/-- C4: for a script fragment containing exactly one top-level
`window.__INITIAL_STATE__ = <expr>;` assignment, `try_extract_from_code`
recovers exactly the slice of the ORIGINAL source text at the span of the
right-hand side — byte-identical to the expression's source text, never
a re-serialization.  The span hypothesis is the swc `BytePos` convention:
the file starts at position 1, and the right-hand side occupies
`[pre.length + 1, pre.length + expr.length + 1)`. -/
theorem locator_roundtrip (pre expr post : List Char) (l1 l2 : List JsAssign)
    (a : JsAssign)
    (ha : matchesInitialState a = true)
    (_hl1 : ∀ x ∈ l1, matchesInitialState x = false)
    (hl2 : ∀ x ∈ l2, matchesInitialState x = false)
    (hspan : a.rightSpan = ⟨pre.length + 1, pre.length + expr.length + 1⟩) :
    try_extract_from_code ⟨l1 ++ a :: l2⟩ (pre ++ (expr ++ post)) = some expr := by
  unfold try_extract_from_code
  rw [visitModule_single l1 l2 a ha hl2, hspan]
  unfold sliceSpan
  have hd : pre.length + 1 - 1 = pre.length := by omega
  simp only [hd]
  rw [List.drop_left]
  have ht : pre.length + expr.length + 1 - 1 - pre.length = expr.length := by omega
  rw [ht, List.take_left]

/-- Non-vacuity of the round-trip theorem on a concrete fragment
`window.__INITIAL_STATE__=[42];`. -/
theorem locator_roundtrip_witness :
    try_extract_from_code
      ⟨[⟨.simpleMember (.ident "window") (.ident "__INITIAL_STATE__"), ⟨26, 30⟩⟩]⟩
      ("window.__INITIAL_STATE__=[42];".toList) = some ("[42]".toList) := by
  have h := locator_roundtrip ("window.__INITIAL_STATE__=".toList) ("[42]".toList)
    (";".toList) [] []
    ⟨.simpleMember (.ident "window") (.ident "__INITIAL_STATE__"), ⟨26, 30⟩⟩
    (by decide) (by intro x hx; cases hx) (by intro x hx; cases hx) (by decide)
  have hc : "window.__INITIAL_STATE__=".toList ++ ("[42]".toList ++ ";".toList) =
      "window.__INITIAL_STATE__=[42];".toList := by decide
  rw [hc] at h
  exact h

/-! ### Claim C5: a parse failure in one block -/

/-- The extraction loop returns its not-found error exactly when every
candidate block parses and yields no match. -/
theorem extract_notFound_iff (blocks : List ScriptBlock) :
    extract_initial_state blocks = .notFoundErr ↔
      ∀ b ∈ blocks, ∃ m, parse_js b = some m ∧
        try_extract_from_code m b.content = none := by
  induction blocks with
  | nil => simp [extract_initial_state]
  | cons b rest ih =>
    cases hp : parse_js b with
    | none =>
      have hstep : extract_initial_state (b :: rest) = .panicked := by
        simp only [extract_initial_state, hp]
      rw [hstep]
      constructor
      · intro h; cases h
      · intro h
        rcases h b (List.mem_cons_self b rest) with ⟨m, hm, _⟩
        rw [hp] at hm; cases hm
    | some m =>
      cases he : try_extract_from_code m b.content with
      | some j =>
        have hstep : extract_initial_state (b :: rest) = .found j := by
          simp only [extract_initial_state, hp, he]
        rw [hstep]
        constructor
        · intro h; cases h
        · intro h
          rcases h b (List.mem_cons_self b rest) with ⟨m2, hm2, hn⟩
          rw [hp] at hm2
          injection hm2 with hm2
          subst hm2
          rw [he] at hn; cases hn
      | none =>
        have hstep : extract_initial_state (b :: rest) = extract_initial_state rest := by
          simp only [extract_initial_state, hp, he]
        rw [hstep, ih]
        constructor
        · intro h x hx
          rcases List.mem_cons.mp hx with rfl | hx
          · exact ⟨m, hp, he⟩
          · exact h x hx
        · intro h x hx
          exact h x (List.mem_cons_of_mem b hx)

/-- A block whose parse panics stops the whole extraction, provided every
earlier block parsed and yielded no match. -/
theorem extract_panics (bs1 : List ScriptBlock) :
    ∀ (b : ScriptBlock) (bs2 : List ScriptBlock),
      (∀ x ∈ bs1, ∃ m, parse_js x = some m ∧
        try_extract_from_code m x.content = none) →
      parse_js b = none →
      extract_initial_state (bs1 ++ b :: bs2) = .panicked := by
  induction bs1 with
  | nil =>
    intro b bs2 _ hb
    rw [List.nil_append]
    simp only [extract_initial_state, hb]
  | cons x rest ih =>
    intro b bs2 hall hb
    rcases hall x (List.mem_cons_self x rest) with ⟨m, hm, hn⟩
    have hstep : extract_initial_state ((x :: rest) ++ b :: bs2) =
        extract_initial_state (rest ++ b :: bs2) := by
      rw [List.cons_append]
      simp only [extract_initial_state, hm, hn]
    rw [hstep]
    exact ih b bs2 (fun y hy => hall y (List.mem_cons_of_mem x hy)) hb

/-- C5 counterexample: with a syntactically invalid first script block
and a second block containing the `window.__INITIAL_STATE__` assignment,
the extractor does not advance to the second block — `parse_js` ends in
`expect`, so the whole extraction terminates abruptly (`panicked`) —
although the second block alone yields the match. -/
theorem parse_error_skip_counterexample :
    extract_initial_state
      [⟨['x'], .invalid⟩,
       ⟨['7', ';'], .valid ⟨[⟨.simpleMember (.ident "window")
          (.ident "__INITIAL_STATE__"), ⟨1, 2⟩⟩]⟩⟩] = .panicked ∧
    extract_initial_state
      [⟨['7', ';'], .valid ⟨[⟨.simpleMember (.ident "window")
          (.ident "__INITIAL_STATE__"), ⟨1, 2⟩⟩]⟩⟩] = .found ['7'] := by
  constructor <;> decide

/-- C5 (amended): a `ParseError` in a candidate script block is fatal for
the WHOLE extraction, not just for that block: `parse_js` panics via
`expect` instead of letting the loop advance (first conjunct, the loop
reaches the malformed block whenever all earlier blocks parse and yield
no match); the overall not-found error is returned exactly when every
block in the document parses and none yields a match (second conjunct). -/
theorem parse_error_is_fatal :
    (∀ (bs1 : List ScriptBlock) (b : ScriptBlock) (bs2 : List ScriptBlock),
      (∀ x ∈ bs1, ∃ m, parse_js x = some m ∧
        try_extract_from_code m x.content = none) →
      parse_js b = none →
      extract_initial_state (bs1 ++ b :: bs2) = .panicked) ∧
    (∀ blocks : List ScriptBlock,
      extract_initial_state blocks = .notFoundErr ↔
        ∀ b ∈ blocks, ∃ m, parse_js b = some m ∧
          try_extract_from_code m b.content = none) :=
  ⟨extract_panics, extract_notFound_iff⟩

/-- Non-vacuity of the fatal-parse-error theorem on a concrete document. -/
theorem parse_error_is_fatal_witness :
    extract_initial_state [⟨['x'], .invalid⟩] = .panicked :=
  parse_error_is_fatal.1 [] ⟨['x'], .invalid⟩ [] (by intro x hx; cases hx) rfl

/-! ### Claim C6: strict title validation -/

/-- C6: title extraction fails when the page has zero `<h1>` elements or
more than one — it never silently picks the first of several — and for
exactly one element returns its inner text: verbatim in `extract_title`
(bilibili/title.rs), and with the path-unsafe `/` replaced by `|` in
`Video::extract_title` (video.rs); in the bilibili pipeline the same
replacement is applied by the caller before the title is used as a
filename. -/
theorem title_extraction_strict :
    ∀ (titles : List String) (page : String),
      (titles.length > 1 →
        extract_title titles page = .error (.multipleH1 page) ∧
        videoExtractTitle titles page = .error (.multipleH1 page)) ∧
      (titles = [] →
        extract_title titles page = .error (.noH1 page) ∧
        videoExtractTitle titles page = .error (.noH1 page)) ∧
      (∀ t, titles = [t] →
        extract_title titles page = .ok t ∧
        videoExtractTitle titles page = .ok (t.replace "/" "|")) := by
  intro titles page
  refine ⟨?_, ?_, ?_⟩
  · intro h
    constructor <;> simp [extract_title, videoExtractTitle, h]
  · rintro rfl
    constructor <;> simp [extract_title, videoExtractTitle]
  · rintro t rfl
    constructor <;> simp [extract_title, videoExtractTitle]

/-- Non-vacuity of the title theorem: one `<h1>` containing a slash. -/
theorem title_extraction_strict_witness :
    extract_title ["foo/bar"] "p" = .ok "foo/bar" ∧
    videoExtractTitle ["foo/bar"] "p" = .ok ("foo/bar".replace "/" "|") :=
  (title_extraction_strict ["foo/bar"] "p").2.2 "foo/bar" rfl

/-! ### Claim C7: join before merge -/

/-- C7: both fetches are started together; the merge step never starts
until both fetches completed successfully (whenever `mergeStart` is in
the trace both fetch outcomes are `ok` and both completion events
precede it); if either fetch fails the whole operation fails with the
first error observed by `try_join!` and the merge is never invoked. -/
theorem fetch_join_before_merge :
    ∀ env : FetchEnv,
      (download_and_merge env).1.take 2 = [.fetchVideoStart, .fetchAudioStart] ∧
      (DlEvent.mergeStart ∈ (download_and_merge env).1 →
        env.videoFetch = .ok ∧ env.audioFetch = .ok ∧
        (download_and_merge env).1.take 5 =
          [.fetchVideoStart, .fetchAudioStart, .fetchVideoDone, .fetchAudioDone,
           .mergeStart]) ∧
      (∀ e, env.videoFetch = .err e → env.audioFetch = .ok →
        (download_and_merge env).2 = .err e ∧
        DlEvent.mergeStart ∉ (download_and_merge env).1) ∧
      (∀ e, env.audioFetch = .err e → env.videoFetch = .ok →
        (download_and_merge env).2 = .err e ∧
        DlEvent.mergeStart ∉ (download_and_merge env).1) ∧
      (∀ e1 e2, env.videoFetch = .err e1 → env.audioFetch = .err e2 →
        (download_and_merge env).2 = .err (if env.videoErrFirst then e1 else e2) ∧
        DlEvent.mergeStart ∉ (download_and_merge env).1) := by
  intro env
  obtain ⟨v, a, f, m, rv, ra⟩ := env
  cases v <;> cases a <;> cases m <;> cases rv <;> cases ra <;>
    simp [download_and_merge, tryJoin2]

/-- Non-vacuity of the join-before-merge theorem: a failing video fetch. -/
theorem fetch_join_before_merge_witness :
    (download_and_merge ⟨.err "video fetch failed", .ok, true, .ok, .ok, .ok⟩).2 =
      .err "video fetch failed" ∧
    DlEvent.mergeStart ∉
      (download_and_merge ⟨.err "video fetch failed", .ok, true, .ok, .ok, .ok⟩).1 :=
  (fetch_join_before_merge ⟨.err "video fetch failed", .ok, true, .ok, .ok, .ok⟩).2.2.1
    "video fetch failed" rfl rfl

/-! ### Claim C8: cleanup failures -/

/-- C8 counterexample: after a successful merge, a failure to delete the
temporary video file is NOT merely logged — `fs::remove_file(..)?`
propagates it, so the download reports failure, and the audio-file
deletion is never attempted. -/
theorem cleanup_failure_counterexample :
    (download_and_merge ⟨.ok, .ok, true, .ok, .err "unlink video failed", .ok⟩).2 =
      .err "unlink video failed" ∧
    (download_and_merge ⟨.ok, .ok, true, .ok, .err "unlink video failed", .ok⟩).2 ≠
      .ok ∧
    DlEvent.removeAudioAttempt ∉
      (download_and_merge ⟨.ok, .ok, true, .ok, .err "unlink video failed", .ok⟩).1 := by
  refine ⟨?_, ?_, ?_⟩ <;> decide

/-- C8 (amended): when the merge step succeeds, deletion of the two
temporary files is attempted in order, but a deletion failure is
propagated as an error: a failed video-file deletion makes the operation
report failure and skips the audio-file deletion, a failed audio-file
deletion makes the operation report failure, and the operation reports
success exactly when both deletions succeed. -/
theorem cleanup_error_propagates :
    ∀ env : FetchEnv, env.videoFetch = .ok → env.audioFetch = .ok →
      env.mergeRun = .ok →
      (DlEvent.removeVideoAttempt ∈ (download_and_merge env).1) ∧
      (env.removeVideoFile = .ok →
        DlEvent.removeAudioAttempt ∈ (download_and_merge env).1) ∧
      (∀ e, env.removeVideoFile = .err e →
        (download_and_merge env).2 = .err e ∧
        DlEvent.removeAudioAttempt ∉ (download_and_merge env).1) ∧
      (∀ e, env.removeVideoFile = .ok → env.removeAudioFile = .err e →
        (download_and_merge env).2 = .err e) ∧
      (env.removeVideoFile = .ok → env.removeAudioFile = .ok →
        (download_and_merge env).2 = .ok) := by
  intro env hv ha hm
  obtain ⟨v, a, f, m, rv, ra⟩ := env
  cases hv; cases ha; cases hm
  cases rv <;> cases ra <;> simp [download_and_merge, tryJoin2]

/-- Non-vacuity of the cleanup theorem: both deletions succeed. -/
theorem cleanup_error_propagates_witness :
    DlEvent.removeVideoAttempt ∈
      (download_and_merge ⟨.ok, .ok, true, .ok, .ok, .ok⟩).1 ∧
    (download_and_merge ⟨.ok, .ok, true, .ok, .ok, .ok⟩).2 = .ok :=
  ⟨(cleanup_error_propagates ⟨.ok, .ok, true, .ok, .ok, .ok⟩ rfl rfl rfl).1,
   (cleanup_error_propagates ⟨.ok, .ok, true, .ok, .ok, .ok⟩ rfl rfl rfl).2.2.2.2
     rfl rfl⟩

/-! ### Claims C9 and C10: catalog construction -/

/-- `position` finds nothing exactly when no element satisfies the
predicate. -/
theorem position_eq_none_iff (p : α → Bool) (l : List α) :
    position p l = none ↔ ∀ x ∈ l, p x = false := by
  induction l with
  | nil => simp [position]
  | cons a rest ih =>
    by_cases h : p a
    · simp [position, h]
    · simp only [position, h, Bool.false_eq_true, if_false, Option.map_eq_none']
      rw [ih]
      simp [h]

/-- A found position is in bounds and its element satisfies the
predicate. -/
theorem position_spec (p : α → Bool) (l : List α) :
    ∀ i, position p l = some i → ∃ hi : i < l.length, p (l.get ⟨i, hi⟩) = true := by
  induction l with
  | nil => intro i h; cases h
  | cons a rest ih =>
    intro i h
    by_cases hp : p a
    · simp only [position, hp, if_true, Option.some.injEq] at h
      subst h
      exact ⟨Nat.succ_pos _, by simpa using hp⟩
    · simp only [position, hp, Bool.false_eq_true, if_false, Option.map_eq_some'] at h
      rcases h with ⟨j, hj, rfl⟩
      rcases ih j hj with ⟨hjl, hpj⟩
      exact ⟨Nat.succ_lt_succ hjl, by simpa using hpj⟩

/-- Specialization to the equality test used by `VideoInfo::new`. -/
theorem position_beq_none_iff (l : List Nat) (q : Nat) :
    position (fun r => r == q) l = none ↔ q ∉ l := by
  rw [position_eq_none_iff]
  constructor
  · intro h hq
    have := h q hq
    simp at this
  · intro hq x hx
    have hne : x ≠ q := fun e => hq (e ▸ hx)
    simpa using hne

/-- Membership in the sorted distinct quality ids is exactly occurrence
among the video variants. -/
theorem mem_availableQuality (video : List VideoTrack) (q : Nat) :
    q ∈ availableQuality video ↔ ∃ v ∈ video, v.id = q := by
  unfold availableQuality
  rw [(List.perm_insertionSort _ _).mem_iff, List.mem_dedup, List.mem_map]

/-- The quality vector of a built catalog is strictly decreasing. -/
theorem availableQuality_sorted (video : List VideoTrack) :
    (availableQuality video).Pairwise (fun a b => a > b) := by
  unfold availableQuality
  have hs : List.Sorted (· ≥ ·)
      (List.insertionSort (fun a b => a ≥ b) ((video.map (fun v => v.id)).dedup)) :=
    List.sorted_insertionSort _ _
  have hn : (List.insertionSort (fun a b => a ≥ b)
      ((video.map (fun v => v.id)).dedup)).Nodup :=
    (List.perm_insertionSort _ _).nodup_iff.mpr (List.nodup_dedup _)
  exact hs.gt_of_ge hn

/-- Under the catalog invariant that descriptions and quality ids have
the same length, the index-bounds check inside `VideoInfo::new` (the
Rust `&all_description[index]` indexing) cannot panic. -/
theorem new_bounds_ok (raw : RawData)
    (hlen : raw.accept_description.length = raw.accept_quality.length) :
    ((availableQuality raw.video).all (fun q =>
      match position (fun r => r == q) raw.accept_quality with
      | some i => decide (i < raw.accept_description.length)
      | none => true)) = true := by
  rw [List.all_eq_true]
  intro q _
  cases hpos : position (fun r => r == q) raw.accept_quality with
  | none => simp
  | some i =>
    rcases position_spec _ _ i hpos with ⟨hi, _⟩
    simp only [hlen]
    simpa using hi

/-- No quality id is missing exactly when every variant's id is
advertised. -/
theorem qualityNotFound_eq_nil_iff (raw : RawData) :
    qualityNotFound raw = [] ↔ ∀ v ∈ raw.video, v.id ∈ raw.accept_quality := by
  unfold qualityNotFound
  rw [List.filter_eq_nil_iff]
  constructor
  · intro h v hv
    have hq := h v.id ((mem_availableQuality raw.video v.id).mpr ⟨v, hv, rfl⟩)
    by_contra hnot
    exact hq (by simp [(position_beq_none_iff raw.accept_quality v.id).mpr hnot])
  · intro h q hq
    rcases (mem_availableQuality raw.video q).mp hq with ⟨v, hv, rfl⟩
    intro hnone
    have : position (fun r => r == v.id) raw.accept_quality = none :=
      Option.isNone_iff_eq_none.mp (by simpa using hnone)
    exact (position_beq_none_iff raw.accept_quality v.id).mp this (h v hv)

/-- Shared label-alignment fact: whenever the id at index `i` of the
sorted distinct quality ids has a position in `accept_quality`, the
description produced at index `i` is the index-aligned label at that
position. -/
theorem qualityDescriptions_aligned (raw : RawData) (i : Nat)
    (hi : i < (availableQuality raw.video).length)
    (hq : (availableQuality raw.video).get ⟨i, hi⟩ ∈ raw.accept_quality) :
    ∃ j, ∃ hj : j < raw.accept_quality.length,
      raw.accept_quality.get ⟨j, hj⟩ = (availableQuality raw.video).get ⟨i, hi⟩ ∧
      (qualityDescriptions raw).getD i "" = raw.accept_description.getD j "" := by
  cases hpos : position (fun r => r == (availableQuality raw.video).get ⟨i, hi⟩)
      raw.accept_quality with
  | none =>
    exact absurd hq ((position_beq_none_iff _ _).mp hpos)
  | some j =>
    rcases position_spec _ _ j hpos with ⟨hj, hpj⟩
    refine ⟨j, hj, by simpa using hpj, ?_⟩
    unfold qualityDescriptions
    have hmap : ((availableQuality raw.video).map (fun q =>
        match position (fun r => r == q) raw.accept_quality with
        | some i => raw.accept_description.getD i ""
        | none => "")).getD i "" =
        (match position (fun r => r == (availableQuality raw.video).get ⟨i, hi⟩)
            raw.accept_quality with
        | some i => raw.accept_description.getD i ""
        | none => "") := by
      rw [getD_of_lt _ _ i (by simpa using hi)]
      simp [List.get_eq_getElem]
    rw [hmap, hpos]

/-- C9: under the catalog invariant that `acceptedLabels` and
`acceptedQualityIds` have the same length, `VideoInfo::new` succeeds
exactly when every quality id occurring among the video variants has an
entry in `acceptedQualityIds`, mapping each id to its index-aligned
label; otherwise construction fails with a typed `VideoParseError`
naming exactly the offending quality ids. -/
theorem catalog_construction_validates :
    ∀ (title : String) (raw : RawData),
      raw.accept_description.length = raw.accept_quality.length →
      ((∀ v ∈ raw.video, v.id ∈ raw.accept_quality) →
        VideoInfo.new title raw = .built ⟨title, qualityDescriptions raw,
          availableQuality raw.video, raw.video, raw.audio⟩ ∧
        ∀ i, ∀ hi : i < (availableQuality raw.video).length,
          ∃ j, ∃ hj : j < raw.accept_quality.length,
            raw.accept_quality.get ⟨j, hj⟩ =
              (availableQuality raw.video).get ⟨i, hi⟩ ∧
            (qualityDescriptions raw).getD i "" =
              raw.accept_description.getD j "") ∧
      ((∃ v ∈ raw.video, v.id ∉ raw.accept_quality) →
        VideoInfo.new title raw = .failed (qualityNotFound raw) ∧
        qualityNotFound raw ≠ [] ∧
        ∀ q ∈ qualityNotFound raw,
          q ∉ raw.accept_quality ∧ ∃ v ∈ raw.video, v.id = q) := by
  intro title raw hlen
  have hbounds := new_bounds_ok raw hlen
  constructor
  · intro hall
    have hnf : qualityNotFound raw = [] := (qualityNotFound_eq_nil_iff raw).mpr hall
    constructor
    · unfold VideoInfo.new
      have hemp : (qualityNotFound raw).isEmpty = true := by rw [hnf]; rfl
      rw [if_pos hbounds, if_pos hemp]
    · intro i hi
      have hqmem : (availableQuality raw.video).get ⟨i, hi⟩ ∈ availableQuality raw.video :=
        List.get_mem _ i hi
      rcases (mem_availableQuality raw.video _).mp hqmem with ⟨v, hv, hid⟩
      exact qualityDescriptions_aligned raw i hi (hid ▸ hall v hv)
  · rintro ⟨v, hv, hnot⟩
    have hne : qualityNotFound raw ≠ [] := by
      intro h
      exact hnot ((qualityNotFound_eq_nil_iff raw).mp h v hv)
    have hemp : (qualityNotFound raw).isEmpty = false := by
      cases h : qualityNotFound raw with
      | nil => exact absurd h hne
      | cons x xs => rfl
    refine ⟨?_, hne, ?_⟩
    · unfold VideoInfo.new
      simp only [hbounds, if_true]
      rw [hemp]
      rfl
    · intro q hq
      have hmem := List.mem_filter.mp hq
      have hnone : position (fun r => r == q) raw.accept_quality = none :=
        Option.isNone_iff_eq_none.mp (by simpa using hmem.2)
      exact ⟨(position_beq_none_iff _ _).mp hnone,
        (mem_availableQuality _ _).mp hmem.1⟩

/-- Non-vacuity of the construction theorem: a catalog whose only
variant carries quality id 99, not advertised in `[10]`, is rejected
with the offending id. -/
theorem catalog_construction_validates_witness :
    VideoInfo.new "t" ⟨["A"], [10], [⟨99, "u", 1⟩], []⟩ =
      .failed (qualityNotFound ⟨["A"], [10], [⟨99, "u", 1⟩], []⟩) ∧
    qualityNotFound ⟨["A"], [10], [⟨99, "u", 1⟩], []⟩ ≠ [] ∧
    ∀ q ∈ qualityNotFound ⟨["A"], [10], [⟨99, "u", 1⟩], []⟩,
      q ∉ ([10] : List Nat) ∧
      ∃ v ∈ ([⟨99, "u", 1⟩] : List VideoTrack), v.id = q :=
  (catalog_construction_validates "t" ⟨["A"], [10], [⟨99, "u", 1⟩], []⟩
    (by decide)).2 ⟨⟨99, "u", 1⟩, by decide, by decide⟩

/-- C10: every catalog built by `VideoInfo::new` has a strictly
decreasing quality vector holding exactly the quality ids occurring
among its video variants, and a description vector of the same length
whose entry at `i` is the catalog label index-aligned with `quality[i]`
in `accept_quality`. -/
theorem built_catalog_invariants :
    ∀ (title : String) (raw : RawData) (vi : VideoInfo),
      VideoInfo.new title raw = .built vi →
      vi.quality.Pairwise (fun a b => a > b) ∧
      (∀ q, q ∈ vi.quality ↔ ∃ v ∈ vi.video, v.id = q) ∧
      vi.quality_description.length = vi.quality.length ∧
      (∀ i, ∀ hi : i < vi.quality.length,
        ∃ j, ∃ hj : j < raw.accept_quality.length,
          raw.accept_quality.get ⟨j, hj⟩ = vi.quality.get ⟨i, hi⟩ ∧
          vi.quality_description.getD i "" = raw.accept_description.getD j "") := by
  intro title raw vi h
  unfold VideoInfo.new at h
  by_cases hb : ((availableQuality raw.video).all (fun q =>
      match position (fun r => r == q) raw.accept_quality with
      | some i => decide (i < raw.accept_description.length)
      | none => true)) = true
  · rw [if_pos hb] at h
    by_cases hemp : (qualityNotFound raw).isEmpty = true
    · rw [if_pos hemp] at h
      have hvi : vi = ⟨title, qualityDescriptions raw, availableQuality raw.video,
          raw.video, raw.audio⟩ := by
        injection h with h2
        exact h2.symm
      subst hvi
      have hnf : qualityNotFound raw = [] := List.isEmpty_iff.mp hemp
      have hall := (qualityNotFound_eq_nil_iff raw).mp hnf
      refine ⟨availableQuality_sorted raw.video, ?_, ?_, ?_⟩
      · intro q
        exact mem_availableQuality raw.video q
      · unfold qualityDescriptions
        exact List.length_map _ _
      · intro i hi
        have hqmem : (availableQuality raw.video).get ⟨i, hi⟩ ∈
            availableQuality raw.video := List.get_mem _ i hi
        rcases (mem_availableQuality raw.video _).mp hqmem with ⟨v, hv, hid⟩
        exact qualityDescriptions_aligned raw i hi (hid ▸ hall v hv)
    · rw [if_neg hemp] at h
      cases h
  · rw [if_neg hb] at h
    cases h

/-- Non-vacuity of the invariants theorem: a catalog with duplicate
quality ids at different bandwidths builds with the deduplicated,
descending quality vector. -/
theorem built_catalog_invariants_witness :
    (VideoInfo.mk "t" ["B", "A"] [20, 10]
      [⟨20, "u", 5⟩, ⟨10, "w", 3⟩, ⟨20, "x", 7⟩] []).quality_description.length =
    (VideoInfo.mk "t" ["B", "A"] [20, 10]
      [⟨20, "u", 5⟩, ⟨10, "w", 3⟩, ⟨20, "x", 7⟩] []).quality.length :=
  (built_catalog_invariants "t"
    ⟨["A", "B"], [10, 20], [⟨20, "u", 5⟩, ⟨10, "w", 3⟩, ⟨20, "x", 7⟩], []⟩
    ⟨"t", ["B", "A"], [20, 10], [⟨20, "u", 5⟩, ⟨10, "w", 3⟩, ⟨20, "x", 7⟩], []⟩
    (by decide)).2.2.1

end BiliDl
